import Mathlib

/-!
Verification of the shorttermemail-backend ingestion pipeline.

The definitions below are a shallow embedding of the JavaScript sources:
smtp-server.js (SMTP ingestion: parseEmailContent, processMultipartPart,
storeEmail, onRcptTo, the onData pipeline), middleware/validation.js
(sanitizeEmailContent) and server.js (the GET emails retrieval handler).
Strings are modelled as lists of characters; the Redis key-value store is
modelled as a function from address to an optional stored entry carrying the
physical TTL last set by setEx.
-/

/-- Character-level whitespace test matching the characters removed by the
JavaScript String.prototype.trim on the ASCII payloads handled here. -/
def isWS (c : Char) : Bool :=
  c = ' ' || c = '\t' || c = '\n' || c = '\r'

/-- Model of JavaScript trim: drop whitespace from both ends. -/
def trimList (l : List Char) : List Char :=
  ((l.dropWhile isWS).reverse.dropWhile isWS).reverse

/-- Model of JavaScript toLowerCase on the ASCII header lines handled here. -/
def lowerL (l : List Char) : List Char :=
  l.map Char.toLower

/-- Model of JavaScript String.prototype.includes: substring containment. -/
def containsSub (pat : List Char) : List Char → Bool
  | [] => pat.isEmpty
  | c :: rest => pat.isPrefixOf (c :: rest) || containsSub pat rest

/-- Model of emailData.split with separator CRLF (accumulator form). -/
def splitCRLFAux : List Char → List Char → List (List Char)
  | '\r' :: '\n' :: rest, acc => acc.reverse :: splitCRLFAux rest []
  | c :: rest, acc => splitCRLFAux rest (c :: acc)
  | [], acc => [acc.reverse]

/-- Model of emailData.split with separator CRLF, as in parseEmailContent. -/
def splitCRLF (l : List Char) : List (List Char) :=
  splitCRLFAux l []

/-- Model of part.split with separator LF (accumulator form). -/
def splitLFAux : List Char → List Char → List (List Char)
  | '\n' :: rest, acc => acc.reverse :: splitLFAux rest []
  | c :: rest, acc => splitLFAux rest (c :: acc)
  | [], acc => [acc.reverse]

/-- Model of part.split with separator LF, as in processMultipartPart. -/
def splitLF (l : List Char) : List (List Char) :=
  splitLFAux l []

/-- Model of Array.prototype.join with an LF separator. -/
def joinLF (ls : List (List Char)) : List Char :=
  List.intercalate ['\n'] ls

/-- Model of the boundary extraction in parseEmailContent: the first position
where the literal text boundary= occurs and is followed (after an optional
double quote) by a nonempty run of characters other than a double quote or a
semicolon yields that run, mirroring the JavaScript pattern match used on the
Content-Type header line. -/
def findBoundary : List Char → Option (List Char)
  | [] => none
  | c :: rest =>
    if ("boundary=".toList).isPrefixOf (c :: rest) then
      let after := (c :: rest).drop 9
      let after2 := match after with
        | '"' :: r => r
        | _ => after
      let cap := after2.takeWhile (fun x => x ≠ '"' && x ≠ ';')
      if cap.isEmpty then findBoundary rest else some cap
    else findBoundary rest

/-- Scan of the header region of one multipart part, as in the first loop of
processMultipartPart: a line whose trim is empty ends the headers; a header
line beginning with content-type (case-insensitively) replaces the content
type with the trimmed remainder of the line; body lines are accumulated. -/
def partScan : List (List Char) → Bool → List Char → List (List Char) →
    List Char × List (List Char)
  | [], _, ct, acc => (ct, acc)
  | line :: rest, true, ct, acc =>
    if trimList line = [] then partScan rest false ct acc
    else if ("content-type:".toList).isPrefixOf (lowerL line) then
      partScan rest true (trimList (line.drop 13)) acc
    else partScan rest true ct acc
  | line :: rest, false, ct, acc => partScan rest false ct (acc ++ [line])

/-- The content type computed for one raw multipart part (default text/plain,
as initialized in processMultipartPart). -/
def partCT (part : List Char) : List Char :=
  (partScan (splitLF part) true ("text/plain".toList) []).1

/-- The trimmed body content computed for one raw multipart part. -/
def partBody (part : List Char) : List Char :=
  trimList (joinLF (partScan (splitLF part) true ("text/plain".toList) []).2)

/-- A part whose computed content type contains text/html. -/
def isHtmlPart (part : List Char) : Bool :=
  containsSub ("text/html".toList) (partCT part)

/-- A part whose computed content type contains text/plain and does not take
the html branch of processMultipartPart. -/
def isPlainPart (part : List Char) : Bool :=
  !isHtmlPart part && containsSub ("text/plain".toList) (partCT part)

/-- Model of processMultipartPart in smtp-server.js: the part is split on LF
into a header region and body lines; a content type containing text/html sets
the html field to the trimmed body; otherwise a content type containing
text/plain sets the body field only when it is still empty. -/
def processMultipartPart (part : List Char) (body : List Char)
    (html : Option (List Char)) : List Char × Option (List Char) :=
  if containsSub ("text/html".toList) (partCT part) then
    (body, some (partBody part))
  else if containsSub ("text/plain".toList) (partCT part) && body.isEmpty then
    (partBody part, html)
  else (body, html)

/-- The sequential processing of a list of multipart parts, in the order the
boundary scan of parseEmailContent hands them to processMultipartPart. -/
def processParts (parts : List (List Char)) (body : List Char)
    (html : Option (List Char)) : List Char × Option (List Char) :=
  parts.foldl (fun acc p => processMultipartPart p acc.1 acc.2) (body, html)

/-- Mutable loop state of parseEmailContent in smtp-server.js. -/
structure ParseState where
  inHeaders : Bool
  subject : List Char
  body : List Char
  html : Option (List Char)
  isMultipart : Bool
  boundary : List Char
  currentPart : List Char
  bodyLines : List (List Char)
deriving DecidableEq

/-- Initial state of the parseEmailContent loop: the email object enters with
the placeholder subject, an empty body and no html. -/
def parseInit : ParseState :=
  { inHeaders := true
    subject := "No Subject".toList
    body := []
    html := none
    isMultipart := false
    boundary := []
    currentPart := []
    bodyLines := [] }

/-- Model of the line loop of parseEmailContent: header scanning for Subject
and Content-Type (with multipart boundary extraction), then either boundary
driven part accumulation or simple body line collection; the terminator line
ends the loop early as the break statement does. -/
def parseLinesLoop : List (List Char) → ParseState → ParseState
  | [], st => st
  | line :: rest, st =>
    if st.inHeaders then
      if line = [] then parseLinesLoop rest { st with inHeaders := false }
      else if ("subject:".toList).isPrefixOf (lowerL line) then
        parseLinesLoop rest { st with subject := trimList (line.drop 8) }
      else if ("content-type:".toList).isPrefixOf (lowerL line) then
        if containsSub ("multipart/".toList) line then
          parseLinesLoop rest
            { st with isMultipart := true
                      boundary := (findBoundary line).getD st.boundary }
        else parseLinesLoop rest st
      else parseLinesLoop rest st
    else
      if st.isMultipart && !st.boundary.isEmpty then
        if line = '-' :: '-' :: st.boundary then
          if !st.currentPart.isEmpty then
            let res := processMultipartPart st.currentPart st.body st.html
            parseLinesLoop rest
              { st with body := res.1, html := res.2, currentPart := [] }
          else parseLinesLoop rest st
        else if line = '-' :: '-' :: st.boundary ++ ['-', '-'] then
          if !st.currentPart.isEmpty then
            let res := processMultipartPart st.currentPart st.body st.html
            { st with body := res.1, html := res.2 }
          else st
        else
          parseLinesLoop rest
            { st with currentPart := st.currentPart ++ line ++ ['\n'] }
      else
        if !(("--".toList).isPrefixOf line)
            && !(("content-".toList).isPrefixOf (lowerL line)) then
          parseLinesLoop rest { st with bodyLines := st.bodyLines ++ [line] }
        else parseLinesLoop rest st

/-- The decoded view of a message produced by parseEmailContent. -/
structure DecodedEmail where
  subject : List Char
  body : List Char
  html : Option (List Char)
deriving DecidableEq

/-- Model of parseEmailContent in smtp-server.js: split the raw payload on
CRLF, run the line loop, then fall back to the joined simple body lines and
finally to the placeholder text when no content was recovered. -/
def parseEmailContent (raw : List Char) : DecodedEmail :=
  let st := parseLinesLoop (splitCRLF raw) parseInit
  let body1 :=
    if !st.bodyLines.isEmpty && st.body.isEmpty then
      trimList (joinLF st.bodyLines)
    else st.body
  let body2 := if body1.isEmpty then "No content".toList else body1
  { subject := st.subject, body := body2, html := st.html }

/-- One global single-character replacement, the semantics of the chained
JavaScript replace calls with single-character global patterns used by
sanitizeEmailContent in middleware validation. -/
def replaceChar (c : Char) (rep : List Char) : List Char → List Char
  | [] => []
  | x :: rest => (if x = c then rep else [x]) ++ replaceChar c rep rest

/-- The replacement table of sanitizeEmailContent, in source order. -/
def sanitizeRules : List (Char × List Char) :=
  [('<', "&lt;".toList), ('>', "&gt;".toList), ('"', "&quot;".toList),
   ('\'', "&#x27;".toList), ('/', "&#x2F;".toList), ('\\', "&#x5C;".toList),
   ('\x60', "&#96;".toList), ('$', "&#36;".toList), ('(', "&#40;".toList),
   (')', "&#41;".toList), ('\x7b', "&#123;".toList), ('\x7d', "&#125;".toList),
   ('[', "&#91;".toList), (']', "&#93;".toList)]

/-- Model of sanitizeEmailContent: the fourteen chained replacements applied
left to right (an empty input yields the empty output, as the early return
does). -/
def sanitizeEmailContent (l : List Char) : List Char :=
  sanitizeRules.foldl (fun acc p => replaceChar p.1 p.2 acc) l

/-- The fourteen characters the escaping step encodes. -/
def bannedChars : List Char :=
  ['<', '>', '"', '\'', '/', '\\', '\x60', '$', '(', ')', '\x7b', '\x7d',
   '[', ']']

/-- The message object assembled by the onData handler of the SMTP server. -/
structure Message where
  id : String
  sender : String
  toAddr : String
  subject : List Char
  body : List Char
  html : Option (List Char)
  timestamp : String
  read : Bool
  size : Nat
deriving DecidableEq

/-- The mailbox record created by the generate-email route: address, creation
and expiry timestamps in epoch milliseconds, the stored messages, and the
client language. -/
structure MailboxRecord where
  email : String
  created : Nat
  expires : Nat
  emails : List Message
  language : String
deriving DecidableEq

/-- One persisted value, together with the physical TTL in seconds last set
by setEx on its key. -/
structure StoredEntry where
  record : MailboxRecord
  ttl : Nat
deriving DecidableEq

/-- The key-value store, keyed by the address part of the email: key. -/
def Store : Type := String → Option StoredEntry

/-- The capacity step of storeEmail: when the stored count has reached the
configured per-address maximum, the oldest message is shifted off before the
new one is pushed. -/
def appendStep {α : Type} (emails : List α) (m : α) (maxPer : Nat) : List α :=
  (if maxPer ≤ emails.length then emails.tail else emails) ++ [m]

/-- Sequential appends through the capacity step, oldest call first. -/
def appendAll {α : Type} (init : List α) (msgs : List α) (maxPer : Nat) :
    List α :=
  msgs.foldl (fun acc m => appendStep acc m maxPer) init

/-- Model of storeEmail in smtp-server.js: look up the record under the
recipient key; when absent do nothing; when present apply the capacity step,
re-persist with the configured TTL, and emit one notification to the
recipient address room. The second component collects the emitted
(address, message) notifications. -/
def storeEmail (store : Store) (m : Message) (maxPer ttlCfg : Nat) :
    Store × List (String × Message) :=
  match store m.toAddr with
  | none => (store, [])
  | some entry =>
    (fun a =>
      if a = m.toAddr then
        some ⟨{ entry.record with
                emails := appendStep entry.record.emails m maxPer },
              ttlCfg⟩
      else store a,
     [(m.toAddr, m)])

/-- The message assembled by processEmail before storage: envelope sender and
first envelope recipient, decoded subject and bodies, with subject and body
passed through sanitizeEmailContent and the html body stored as decoded. The
size is the UTF-8 byte length of the raw payload. -/
def buildMessage (id sender : String) (rcptTo : List String) (ts : String)
    (raw : List Char) : Message :=
  let e := parseEmailContent raw
  { id := id
    sender := sender
    toAddr := rcptTo.headD "undefined"
    subject := sanitizeEmailContent e.subject
    body := sanitizeEmailContent e.body
    html := e.html
    timestamp := ts
    read := false
    size := (raw.map Char.utf8Size).sum }

/-- The end-of-stream pipeline of processEmail: build the message from the
session envelope and the accumulated raw data, then run storeEmail. -/
def processDelivery (store : Store) (sender id ts : String)
    (rcptTo : List String) (raw : List Char) (maxPer ttlCfg : Nat) :
    Store × List (String × Message) :=
  storeEmail store (buildMessage id sender rcptTo ts raw) maxPer ttlCfg

/-- Model of the onRcptTo acceptance test of the SMTP server: the lowercased
recipient address must end with one of the configured allowed domains. -/
def onRcptTo (allowedDomains : List String) (address : String) : Bool :=
  allowedDomains.any (fun d => d.toList.isSuffixOf (lowerL address.toList))

/-- The part of an address after its last at-sign. -/
def domainOf (address : String) : String :=
  String.mk ((address.toList.reverse.takeWhile (fun c => c ≠ '@')).reverse)

/-- Modelled from the spec: the claim reads the recipient gate as exact
membership of the domain (the part after the at-sign) in the allow-list;
the configured allow-list itself lives in config.js, which is not part of
the sources, so it is passed as a parameter. -/
def rcptDomainInAllowList (allowed : List String) (address : String) : Bool :=
  allowed.contains (domainOf address)

/-- Outcome of the GET emails route: not found (404), expired (410), or a
success payload carrying the stored messages with the expiry and creation
timestamps. -/
inductive GetResult where
  | notFound : GetResult
  | expired : GetResult
  | success : List Message → Nat → Nat → GetResult
deriving DecidableEq

/-- Model of the GET emails handler in server.js: a missing key is not
found; a present record whose expires timestamp is strictly in the past is
deleted and reported expired; otherwise the stored messages are returned,
empty or not. The second component is the record left under the key. -/
def getEmails (st : Option MailboxRecord) (now : Nat) :
    GetResult × Option MailboxRecord :=
  match st with
  | none => (GetResult.notFound, none)
  | some r =>
    if r.expires < now then (GetResult.expired, none)
    else (GetResult.success r.emails r.expires r.created, some r)

/-- The concrete multipart payload of the decode scenario: one text part
containing Hello and one html part containing a bold Hello. -/
def rawMultipartEx : List Char :=
  ("Content-Type: multipart/alternative; boundary=\"XYZ\"\r\n\r\n--XYZ\r\nContent-Type: text/plain\r\n\r\nHello\r\n--XYZ\r\nContent-Type: text/html\r\n\r\n<b>Hello</b>\r\n--XYZ--").toList

/-- A concrete message addressed to a stored mailbox. -/
def msgEx : Message :=
  { id := "m1"
    sender := "sender@example.org"
    toAddr := "a@shorttermemail.com"
    subject := "hi".toList
    body := "b".toList
    html := none
    timestamp := "t"
    read := false
    size := 1 }

/-- A concrete mailbox record whose expires timestamp has already passed at
the observation instant used in the counterexample. -/
def recExpired : MailboxRecord :=
  { email := "a@shorttermemail.com"
    created := 0
    expires := 10
    emails := []
    language := "en" }

/-- A concrete store holding only the expired record. -/
def storeEx : Store :=
  fun a => if a = "a@shorttermemail.com" then some ⟨recExpired, 5⟩ else none

/-- The everywhere-empty store. -/
def emptyStore : Store :=
  fun _ => none

/-- A concrete still-valid empty mailbox record. -/
def recEmptyValid : MailboxRecord :=
  { email := "b@shorttermemail.com"
    created := 5
    expires := 100
    emails := []
    language := "en" }

/-- A multipart part with a text/plain content type and an empty body. -/
def partPlainEmpty : List Char :=
  ("Content-Type: text/plain\n\n").toList

/-- A multipart part with a text/plain content type and a nonempty body. -/
def partPlainSecond : List Char :=
  ("Content-Type: text/plain\n\nsecond").toList

theorem appendStep_length_le {α : Type} {maxPer : Nat} (h : 1 ≤ maxPer)
    (l : List α) (m : α) (hl : l.length ≤ maxPer) :
    (appendStep l m maxPer).length ≤ maxPer := by
  unfold appendStep
  by_cases hc : maxPer ≤ l.length
  · rw [if_pos hc, List.length_append, List.length_tail]
    simp only [List.length_cons, List.length_nil]
    omega
  · rw [if_neg hc, List.length_append]
    simp only [List.length_cons, List.length_nil]
    omega

theorem appendAll_cons {α : Type} (init : List α) (m : α) (rest : List α)
    (maxPer : Nat) :
    appendAll init (m :: rest) maxPer
      = appendAll (appendStep init m maxPer) rest maxPer := rfl

theorem appendAll_length_le {α : Type} {maxPer : Nat} (h : 1 ≤ maxPer) :
    ∀ (msgs init : List α), init.length ≤ maxPer →
      (appendAll init msgs maxPer).length ≤ maxPer := by
  intro msgs
  induction msgs with
  | nil => intro init h0; simpa [appendAll] using h0
  | cons m rest ih =>
    intro init h0
    rw [appendAll_cons]
    exact ih _ (appendStep_length_le h init m h0)

theorem appendAll_no_evict {α : Type} {maxPer : Nat} :
    ∀ (msgs init : List α), init.length + msgs.length ≤ maxPer →
      appendAll init msgs maxPer = init ++ msgs := by
  intro msgs
  induction msgs with
  | nil => intro init h; simp [appendAll]
  | cons m rest ih =>
    intro init h
    have hlt : ¬ maxPer ≤ init.length := by
      simp only [List.length_cons] at h; omega
    have hstep : appendStep init m maxPer = init ++ [m] := by
      unfold appendStep; rw [if_neg hlt]
    rw [appendAll_cons, hstep,
      ih (init ++ [m]) (by simp only [List.length_append, List.length_cons,
        List.length_nil] at h ⊢; omega)]
    simp

/-- Claim C1: starting from an empty mailbox, any sequence of sequential
appends through the storeEmail capacity step keeps the stored length within
the configured positive per-address maximum, and appending exactly
maxPer + 1 messages leaves the last maxPer of them, in arrival order, with
the first message evicted. -/
theorem C1_fifo_bound {α : Type} (maxPer : Nat) (h : 1 ≤ maxPer) :
    (∀ msgs : List α, (appendAll [] msgs maxPer).length ≤ maxPer) ∧
    (∀ msgs : List α, msgs.length = maxPer + 1 →
      appendAll [] msgs maxPer = msgs.tail ∧
      (appendAll [] msgs maxPer).length = maxPer) := by
  constructor
  · intro msgs
    exact appendAll_length_le h msgs [] (by simp)
  · intro msgs hlen
    rcases List.eq_nil_or_concat msgs with h0 | ⟨xs, y, rfl⟩
    · subst h0; simp at hlen
    · have hxs : xs.length = maxPer := by
        simpa using hlen
      have h1 : appendAll ([] : List α) xs maxPer = xs := by
        simpa using appendAll_no_evict xs [] (by simp [hxs])
      have hfold : appendAll ([] : List α) (xs.concat y) maxPer
          = appendStep (appendAll [] xs maxPer) y maxPer := by
        simp [appendAll, List.concat_eq_append, List.foldl_append]
      have hstep : appendStep xs y maxPer = xs.tail ++ [y] := by
        unfold appendStep; rw [if_pos (by omega)]
      have hne : xs ≠ [] := by
        intro hx; rw [hx] at hxs; simp at hxs; omega
      have htail : (xs.concat y).tail = xs.tail ++ [y] := by
        cases xs with
        | nil => exact absurd rfl hne
        | cons a as => simp [List.concat_eq_append]
      have hmain : appendAll ([] : List α) (xs.concat y) maxPer
          = (xs.concat y).tail := by
        rw [hfold, h1, hstep, htail]
      refine ⟨hmain, ?_⟩
      rw [hmain, htail, List.length_append, List.length_tail]
      simp only [List.length_cons, List.length_nil]
      omega

/-- Witness for C1 at capacity three with four sequential appends. -/
theorem C1_fifo_bound_witness :
    1 ≤ 3 ∧ appendAll ([] : List Nat) [1, 2, 3, 4] 3 = [2, 3, 4] := by
  refine ⟨by decide, ?_⟩
  have h := (C1_fifo_bound (α := Nat) 3 (by decide)).2 [1, 2, 3, 4] (by decide)
  simpa using h.1

/-- Claim C10: one append through the capacity step removes at most one
message: at or above the configured positive capacity, the length is
unchanged by an append, and a record strictly above capacity stays strictly
above it. -/
theorem C10_single_eviction {α : Type} (maxPer : Nat) (h : 1 ≤ maxPer)
    (emails : List α) (m : α) :
    (maxPer ≤ emails.length →
      (appendStep emails m maxPer).length = emails.length) ∧
    (maxPer < emails.length →
      (appendStep emails m maxPer).length = emails.length ∧
      maxPer < (appendStep emails m maxPer).length) := by
  constructor
  · intro hge
    unfold appendStep
    rw [if_pos hge, List.length_append, List.length_tail]
    simp only [List.length_cons, List.length_nil]
    omega
  · intro hgt
    have h1 : (appendStep emails m maxPer).length = emails.length := by
      unfold appendStep
      rw [if_pos (Nat.le_of_lt hgt), List.length_append, List.length_tail]
      simp only [List.length_cons, List.length_nil]
      omega
    exact ⟨h1, by omega⟩

/-- Witness for C10: capacity two, three stored messages, one append. -/
theorem C10_single_eviction_witness :
    1 ≤ 2 ∧ 2 ≤ 3 ∧ (appendStep [10, 11, 12] (13 : Nat) 2).length = 3 := by
  refine ⟨by decide, by decide, ?_⟩
  have h := (C10_single_eviction 2 (by decide) [10, 11, 12] (13 : Nat)).1
    (by decide)
  simpa using h

theorem storeEmail_other (store : Store) (m : Message) (maxPer ttlCfg : Nat)
    (b : String) (hb : b ≠ m.toAddr) :
    (storeEmail store m maxPer ttlCfg).1 b = store b := by
  unfold storeEmail
  cases h : store m.toAddr with
  | none => rfl
  | some entry => simp [hb]

theorem storeEmail_notifs (store : Store) (m : Message) (maxPer ttlCfg : Nat)
    (p : String × Message)
    (hp : p ∈ (storeEmail store m maxPer ttlCfg).2) : p.1 = m.toAddr := by
  unfold storeEmail at hp
  cases h : store m.toAddr with
  | none => rw [h] at hp; simp at hp
  | some entry =>
    rw [h] at hp
    rw [List.mem_singleton] at hp
    rw [hp]

/-- Claim C3 (amended): storeEmail is a silent no-op exactly when no record
is physically present under the recipient key: the store is returned
untouched and no notification is emitted; the record expiry timestamp is
never consulted. -/
theorem C3_missing_silent_noop (store : Store) (m : Message)
    (maxPer ttlCfg : Nat) (h : store m.toAddr = none) :
    storeEmail store m maxPer ttlCfg = (store, []) := by
  unfold storeEmail; rw [h]

/-- Witness for C3: delivery to the empty store changes nothing. -/
theorem C3_missing_silent_noop_witness :
    emptyStore msgEx.toAddr = none ∧
    storeEmail emptyStore msgEx 50 86400 = (emptyStore, []) :=
  ⟨rfl, C3_missing_silent_noop emptyStore msgEx 50 86400 rfl⟩

/-- Counterexample for C3 as stated: a record whose expires timestamp has
already passed but that is still physically present accepts the append and
triggers a notification; expired mail is not dropped. -/
theorem C3_counterexample :
    recExpired.expires < 100 ∧
    storeEx msgEx.toAddr = some ⟨recExpired, 5⟩ ∧
    (storeEmail storeEx msgEx 50 86400).1 msgEx.toAddr ≠ storeEx msgEx.toAddr ∧
    (storeEmail storeEx msgEx 50 86400).2 = [(msgEx.toAddr, msgEx)] := by
  decide

/-- Claim C5: a successful append leaves every field of the record other
than the message list unchanged, in particular the created and expires
timestamps, and re-persists the record with the full configured TTL. -/
theorem C5_append_frame (store : Store) (m : Message) (maxPer ttlCfg : Nat)
    (e : StoredEntry) (h : store m.toAddr = some e) :
    (storeEmail store m maxPer ttlCfg).1 m.toAddr =
      some ⟨{ e.record with emails := appendStep e.record.emails m maxPer },
            ttlCfg⟩ := by
  unfold storeEmail
  rw [h]
  simp

/-- Witness for C5 at a concrete store, record and message. -/
theorem C5_append_frame_witness :
    storeEx msgEx.toAddr = some ⟨recExpired, 5⟩ ∧
    (storeEmail storeEx msgEx 50 86400).1 msgEx.toAddr =
      some ⟨{ recExpired with emails := appendStep recExpired.emails msgEx 50 },
            86400⟩ :=
  ⟨by decide, C5_append_frame storeEx msgEx 50 86400 ⟨recExpired, 5⟩ (by decide)⟩

/-- Claim C6: retrieval of an unknown address is not found; retrieval of a
present record whose expires timestamp is strictly past is reported expired
and the key deleted; a still-valid record yields its stored messages, empty
or not, never an error. -/
theorem C6_retrieval (st : Option MailboxRecord) (now : Nat) :
    (st = none → getEmails st now = (GetResult.notFound, none)) ∧
    (∀ r : MailboxRecord, st = some r → r.expires < now →
      getEmails st now = (GetResult.expired, none)) ∧
    (∀ r : MailboxRecord, st = some r → ¬ r.expires < now →
      getEmails st now =
        (GetResult.success r.emails r.expires r.created, some r)) := by
  refine ⟨?_, ?_, ?_⟩
  · intro h; subst h; rfl
  · intro r h hlt; subst h; simp [getEmails, hlt]
  · intro r h hlt; subst h; simp [getEmails, hlt]

/-- Witness for C6: a still-valid empty mailbox yields a success carrying
the empty message sequence. -/
theorem C6_retrieval_witness :
    (some recEmptyValid = some recEmptyValid) ∧
    ¬ recEmptyValid.expires < 50 ∧
    getEmails (some recEmptyValid) 50 =
      (GetResult.success [] 100 5, some recEmptyValid) := by
  refine ⟨rfl, by decide, ?_⟩
  have h := (C6_retrieval (some recEmptyValid) 50).2.2 recEmptyValid rfl
    (by decide)
  simpa using h

theorem not_mem_replaceChar_self {c : Char} {rep : List Char}
    (hrep : c ∉ rep) : ∀ (l : List Char), c ∉ replaceChar c rep l := by
  intro l
  induction l with
  | nil => simp [replaceChar]
  | cons x rest ih =>
    intro hmem
    simp only [replaceChar, List.mem_append] at hmem
    rcases hmem with h1 | h2
    · by_cases hx : x = c
      · rw [if_pos hx] at h1; exact hrep h1
      · rw [if_neg hx] at h1
        simp only [List.mem_singleton] at h1
        exact hx h1.symm
    · exact ih h2

theorem not_mem_replaceChar {c d : Char} {rep : List Char}
    (hrep : c ∉ rep) : ∀ (l : List Char), c ∉ l → c ∉ replaceChar d rep l := by
  intro l
  induction l with
  | nil => intro _ h; simp [replaceChar] at h
  | cons x rest ih =>
    intro hl hmem
    simp only [replaceChar, List.mem_append] at hmem
    rcases hmem with h1 | h2
    · by_cases hx : x = d
      · rw [if_pos hx] at h1; exact hrep h1
      · rw [if_neg hx] at h1
        simp only [List.mem_singleton] at h1
        exact hl (by rw [h1]; exact List.mem_cons_self x rest)
    · exact ih (fun hc => hl (List.mem_cons_of_mem x hc)) h2

theorem sanitize_foldl_preserve {c : Char} :
    ∀ (rules : List (Char × List Char)) (l : List Char),
      c ∉ l → (∀ p ∈ rules, c ∉ p.2) →
      c ∉ rules.foldl (fun acc p => replaceChar p.1 p.2 acc) l := by
  intro rules
  induction rules with
  | nil => intro l hl _; simpa using hl
  | cons p rest ih =>
    intro l hl hr
    rw [List.foldl_cons]
    exact ih _ (not_mem_replaceChar (hr p (List.mem_cons_self p rest)) l hl)
      (fun q hq => hr q (List.mem_cons_of_mem _ hq))

theorem sanitize_foldl_removes {c : Char} :
    ∀ (rules : List (Char × List Char)) (l : List Char),
      (∃ r, (c, r) ∈ rules) → (∀ p ∈ rules, c ∉ p.2) →
      c ∉ rules.foldl (fun acc p => replaceChar p.1 p.2 acc) l := by
  intro rules
  induction rules with
  | nil => rintro l ⟨r, hr⟩ _; simp at hr
  | cons p rest ih =>
    rintro l ⟨r, hr⟩ hno
    rw [List.foldl_cons]
    rcases List.mem_cons.mp hr with heq | hmem
    · have hcp : p.1 = c := by rw [← heq]
      have hgone : c ∉ replaceChar p.1 p.2 l := by
        rw [hcp]
        exact not_mem_replaceChar_self (hno p (List.mem_cons_self p rest)) l
      exact sanitize_foldl_preserve rest _ hgone
        (fun q hq => hno q (List.mem_cons_of_mem _ hq))
    · exact ih _ ⟨r, hmem⟩ (fun q hq => hno q (List.mem_cons_of_mem _ hq))

theorem sanitize_no_banned {c : Char} (hc : c ∈ bannedChars)
    (l : List Char) : c ∉ sanitizeEmailContent l := by
  have hkeys : ∀ c ∈ bannedChars,
      sanitizeRules.any (fun p => p.1 = c) = true := by decide
  have hclean : ∀ c ∈ bannedChars, ∀ p ∈ sanitizeRules, c ∉ p.2 := by decide
  obtain ⟨p, hp, hpc⟩ := List.any_eq_true.mp (hkeys c hc)
  have hpc' : p.1 = c := of_decide_eq_true hpc
  have hmem : (c, p.2) ∈ sanitizeRules := by
    have hpe : p = (c, p.2) := by
      cases p with
      | mk a b => simp only at hpc'; rw [hpc']
    rwa [hpe] at hp
  exact sanitize_foldl_removes sanitizeRules l ⟨p.2, hmem⟩
    (fun q hq => hclean c hc q hq)

theorem buildMessage_fields (id sender ts : String) (rcptTo : List String)
    (raw : List Char) :
    (buildMessage id sender rcptTo ts raw).subject
        = sanitizeEmailContent (parseEmailContent raw).subject ∧
    (buildMessage id sender rcptTo ts raw).body
        = sanitizeEmailContent (parseEmailContent raw).body ∧
    (buildMessage id sender rcptTo ts raw).html
        = (parseEmailContent raw).html := by
  refine ⟨?_, ?_, ?_⟩ <;> simp only [buildMessage]

/-- Claim C2 (amended): the stored subject and text body pass through
sanitizeEmailContent, so neither contains any of the fourteen escaped
characters; the stored html body however is exactly the decoded html part,
not passed through the escaping step. -/
theorem C2_sanitized_fields (id sender ts : String) (rcptTo : List String)
    (raw : List Char) (c : Char) (hc : c ∈ bannedChars) :
    c ∉ (buildMessage id sender rcptTo ts raw).subject ∧
    c ∉ (buildMessage id sender rcptTo ts raw).body ∧
    (buildMessage id sender rcptTo ts raw).html
      = (parseEmailContent raw).html := by
  obtain ⟨hs, hb, hh⟩ := buildMessage_fields id sender ts rcptTo raw
  refine ⟨?_, ?_, hh⟩
  · rw [hs]; exact sanitize_no_banned hc _
  · rw [hb]; exact sanitize_no_banned hc _

/-- Witness for C2 on the concrete multipart payload. -/
theorem C2_sanitized_fields_witness :
    '<' ∈ bannedChars ∧
    ('<' ∉ (buildMessage "i" "s" ["a@shorttermemail.com"] "t"
        rawMultipartEx).subject ∧
     '<' ∉ (buildMessage "i" "s" ["a@shorttermemail.com"] "t"
        rawMultipartEx).body ∧
     (buildMessage "i" "s" ["a@shorttermemail.com"] "t" rawMultipartEx).html
       = (parseEmailContent rawMultipartEx).html) :=
  ⟨by decide, C2_sanitized_fields "i" "s" "t" ["a@shorttermemail.com"]
    rawMultipartEx '<' (by decide)⟩

/-- Counterexample for C2 as stated: the stored html body of the concrete
multipart message keeps a raw left angle bracket, one of the characters the
claim says can no longer occur in any stored extracted field. -/
theorem C2_counterexample :
    (buildMessage "i" "s" ["a@shorttermemail.com"] "t" rawMultipartEx).html
      = some ("<b>Hello</b>".toList) ∧
    '<' ∈ "<b>Hello</b>".toList ∧ '<' ∈ bannedChars := by
  decide

/-- Claim C7: decoding the multipart payload with one text part containing
Hello and one html part containing a bold Hello populates the text body from
the former and the html body from the latter. -/
theorem C7_multipart_decode :
    parseEmailContent rawMultipartEx =
      { subject := "No Subject".toList, body := "Hello".toList,
        html := some ("<b>Hello</b>".toList) } := by
  decide

/-- Claim C4 (amended): the recipient gate accepts exactly when some
allow-list entry is a suffix of the lowercased recipient address, and a
recipient absent from the accepted envelope list is never written to by the
delivery pipeline. -/
theorem C4_suffix_gate (allowed : List String) (address : String)
    (store : Store) (sender id ts : String) (rcptTo : List String)
    (raw : List Char) (maxPer ttlCfg : Nat) (b : String)
    (hne : rcptTo ≠ []) (hb : b ∉ rcptTo) :
    (onRcptTo allowed address = true ↔
      ∃ d ∈ allowed, d.toList <:+ lowerL address.toList) ∧
    (processDelivery store sender id ts rcptTo raw maxPer ttlCfg).1 b
      = store b := by
  constructor
  · unfold onRcptTo
    rw [List.any_eq_true]
    constructor
    · rintro ⟨d, hd, hsuf⟩
      exact ⟨d, hd, List.isSuffixOf_iff_suffix.mp hsuf⟩
    · rintro ⟨d, hd, hsuf⟩
      exact ⟨d, hd, List.isSuffixOf_iff_suffix.mpr hsuf⟩
  · cases rcptTo with
    | nil => exact absurd rfl hne
    | cons a rest =>
      have hba : b ≠ a := by
        intro hx; rw [hx] at hb; exact hb (List.mem_cons_self a rest)
      exact storeEmail_other store _ maxPer ttlCfg b hba

/-- Witness for C4 on concrete data: the gate characterization and the
untouched foreign key. -/
theorem C4_suffix_gate_witness :
    (["a@shorttermemail.com"] : List String) ≠ [] ∧
    "b@shorttermemail.com" ∉ (["a@shorttermemail.com"] : List String) ∧
    ((onRcptTo ["shorttermemail.com"] "User@shorttermemail.com" = true ↔
      ∃ d ∈ (["shorttermemail.com"] : List String),
        d.toList <:+ lowerL "User@shorttermemail.com".toList) ∧
     (processDelivery storeEx "s" "i" "t" ["a@shorttermemail.com"]
        rawMultipartEx 50 86400).1 "b@shorttermemail.com"
       = storeEx "b@shorttermemail.com") :=
  ⟨by decide, by decide,
   C4_suffix_gate ["shorttermemail.com"] "User@shorttermemail.com" storeEx
     "s" "i" "t" ["a@shorttermemail.com"] rawMultipartEx 50 86400
     "b@shorttermemail.com" (by decide) (by decide)⟩

/-- Counterexample for C4 as stated: an address whose domain is not a member
of the allow-list is nevertheless accepted, because the gate is a suffix
match on the whole address, not a membership test on the part after the
at-sign. -/
theorem C4_counterexample :
    onRcptTo ["shorttermemail.com"] "user@evilshorttermemail.com" = true ∧
    domainOf "user@evilshorttermemail.com" = "evilshorttermemail.com" ∧
    rcptDomainInAllowList ["shorttermemail.com"]
      "user@evilshorttermemail.com" = false := by
  decide

/-- Claim C8: with several accepted recipients in the envelope, the pipeline
stores and notifies only under the first one; every other key of the store
is untouched by the delivery. -/
theorem C8_first_recipient_only (store : Store) (sender id ts : String)
    (a : String) (rest : List String) (raw : List Char) (maxPer ttlCfg : Nat)
    (hrest : rest ≠ []) :
    (∀ c : String, c ≠ a →
      (processDelivery store sender id ts (a :: rest) raw maxPer ttlCfg).1 c
        = store c) ∧
    (∀ p ∈ (processDelivery store sender id ts (a :: rest) raw
        maxPer ttlCfg).2, p.1 = a) := by
  constructor
  · intro c hc
    exact storeEmail_other store _ maxPer ttlCfg c hc
  · intro p hp
    exact storeEmail_notifs store _ maxPer ttlCfg p hp

/-- Witness for C8 with a two-recipient envelope and a concrete store. -/
theorem C8_first_recipient_only_witness :
    (["b@shorttermemail.com"] : List String) ≠ [] ∧
    ((∀ c : String, c ≠ "a@shorttermemail.com" →
      (processDelivery storeEx "s" "i" "t"
        ("a@shorttermemail.com" :: ["b@shorttermemail.com"]) rawMultipartEx
        50 86400).1 c = storeEx c) ∧
     (∀ p ∈ (processDelivery storeEx "s" "i" "t"
        ("a@shorttermemail.com" :: ["b@shorttermemail.com"]) rawMultipartEx
        50 86400).2, p.1 = "a@shorttermemail.com")) :=
  ⟨by decide, C8_first_recipient_only storeEx "s" "i" "t"
    "a@shorttermemail.com" ["b@shorttermemail.com"] rawMultipartEx 50 86400
    (by decide)⟩


theorem processMultipartPart_snd (p : List Char) (b : List Char)
    (h : Option (List Char)) :
    (processMultipartPart p b h).2 =
      if isHtmlPart p then some (partBody p) else h := by
  unfold processMultipartPart isHtmlPart
  cases h1 : containsSub ("text/html".toList) (partCT p) with
  | true => rfl
  | false =>
    cases h2 : containsSub ("text/plain".toList) (partCT p) && b.isEmpty with
    | true => rfl
    | false => rfl

theorem processMultipartPart_fst (p : List Char) (b : List Char)
    (h : Option (List Char)) :
    (processMultipartPart p b h).1 =
      if isPlainPart p && b.isEmpty then partBody p else b := by
  unfold processMultipartPart isPlainPart isHtmlPart
  cases h1 : containsSub ("text/html".toList) (partCT p) with
  | true => rfl
  | false =>
    cases h2 : containsSub ("text/plain".toList) (partCT p) with
    | true =>
      cases h3 : b.isEmpty with
      | true => rfl
      | false => rfl
    | false => rfl

theorem processParts_cons (p : List Char) (ps : List (List Char))
    (b : List Char) (h : Option (List Char)) :
    processParts (p :: ps) b h =
      processParts ps (processMultipartPart p b h).1
        (processMultipartPart p b h).2 := rfl

theorem find?_append_of_some {α : Type} (f : α → Bool) :
    ∀ (l₁ l₂ : List α) (a : α),
      l₁.find? f = some a → (l₁ ++ l₂).find? f = some a := by
  intro l₁
  induction l₁ with
  | nil => intro l₂ a h; simp [List.find?] at h
  | cons x rest ih =>
    intro l₂ a h
    rw [List.cons_append]
    by_cases hx : f x
    · rw [List.find?_cons_of_pos _ hx] at h ⊢; exact h
    · rw [List.find?_cons_of_neg _ hx] at h ⊢
      exact ih l₂ a h

theorem find?_append_of_none {α : Type} (f : α → Bool) :
    ∀ (l₁ l₂ : List α),
      l₁.find? f = none → (l₁ ++ l₂).find? f = l₂.find? f := by
  intro l₁
  induction l₁ with
  | nil => intro l₂ _; rfl
  | cons x rest ih =>
    intro l₂ h
    by_cases hx : f x
    · rw [List.find?_cons_of_pos _ hx] at h; exact absurd h (by simp)
    · rw [List.find?_cons_of_neg _ hx] at h
      rw [List.cons_append, List.find?_cons_of_neg _ hx]
      exact ih l₂ h

theorem processParts_html (parts : List (List Char)) : ∀ (b : List Char)
    (h : Option (List Char)),
    (processParts parts b h).2 =
      match parts.reverse.find? isHtmlPart with
      | some p => some (partBody p)
      | none => h := by
  induction parts with
  | nil => intro b h; rfl
  | cons p rest ih =>
    intro b h
    rw [processParts_cons,
      ih (processMultipartPart p b h).1 (processMultipartPart p b h).2,
      List.reverse_cons]
    cases hfind : rest.reverse.find? isHtmlPart with
    | some q =>
      rw [find?_append_of_some isHtmlPart rest.reverse [p] q hfind]
    | none =>
      rw [find?_append_of_none isHtmlPart rest.reverse [p] hfind,
        processMultipartPart_snd]
      by_cases hp : isHtmlPart p
      · rw [if_pos hp, List.find?_cons_of_pos _ hp]
      · rw [if_neg hp, List.find?_cons_of_neg _ hp]
        rfl

theorem processParts_body (parts : List (List Char)) : ∀ (b : List Char)
    (h : Option (List Char)),
    (processParts parts b h).1 =
      if b = [] then
        match parts.find?
            (fun p => isPlainPart p && !(partBody p).isEmpty) with
        | some p => partBody p
        | none => []
      else b := by
  induction parts with
  | nil =>
    intro b h
    by_cases hb : b = []
    · rw [if_pos hb]; exact hb
    · rw [if_neg hb]; rfl
  | cons p rest ih =>
    intro b h
    rw [processParts_cons,
      ih (processMultipartPart p b h).1 (processMultipartPart p b h).2,
      processMultipartPart_fst]
    by_cases hb : b = []
    · subst hb
      rw [if_pos rfl, List.isEmpty_nil, Bool.and_true]
      cases hpl : isPlainPart p with
      | true =>
        by_cases hpe : partBody p = []
        · have hpred :
              ¬ ((isPlainPart p && !(partBody p).isEmpty) = true) := by
            rw [hpl, hpe, List.isEmpty_nil]
            exact fun hcontra => Bool.noConfusion hcontra
          rw [List.find?_cons_of_neg rest hpred, if_pos rfl, if_pos hpe]
        · have hbe : (partBody p).isEmpty = false :=
            (List.isEmpty_eq_false).mpr hpe
          have hpred : (isPlainPart p && !(partBody p).isEmpty) = true := by
            rw [hpl, hbe]; rfl
          rw [List.find?_cons_of_pos rest hpred, if_pos rfl, if_neg hpe]
      | false =>
        have hpred :
            ¬ ((isPlainPart p && !(partBody p).isEmpty) = true) := by
          rw [hpl]
          exact fun hcontra => Bool.noConfusion hcontra
        rw [List.find?_cons_of_neg rest hpred]
        rfl
    · have hbe : b.isEmpty = false := (List.isEmpty_eq_false).mpr hb
      rw [hbe, Bool.and_false]
      have hinner : (if false = true then partBody p else b) = b := rfl
      rw [hinner, if_neg hb]
      rw [if_neg hb]

/-- Claim C9 (amended): within one multipart decode the two body kinds are
resolved asymmetrically: the html body equals the trimmed body of the last
text/html part (each later part overwrites the earlier), while the text body
equals the trimmed body of the first text/plain part whose trimmed body is
nonempty — an empty text/plain part leaves the body unset, so a later
nonempty one still wins. -/
theorem C9_part_resolution (parts : List (List Char)) :
    ((processParts parts [] none).2 =
      match parts.reverse.find? isHtmlPart with
      | some p => some (partBody p)
      | none => none) ∧
    ((processParts parts [] none).1 =
      match parts.find?
          (fun p => isPlainPart p && !(partBody p).isEmpty) with
      | some p => partBody p
      | none => []) := by
  refine ⟨processParts_html parts [] none, ?_⟩
  rw [processParts_body parts [] none, if_pos rfl]

/-- Counterexample for C9 as stated: with two text/plain parts, the first of
which has an empty body, the decoded text body is the body of the second
part, not of the first. -/
theorem C9_counterexample :
    isPlainPart partPlainEmpty = true ∧
    isPlainPart partPlainSecond = true ∧
    partBody partPlainEmpty = [] ∧
    (processParts [partPlainEmpty, partPlainSecond] [] none).1 =
      "second".toList ∧
    (processParts [partPlainEmpty, partPlainSecond] [] none).1 ≠
      partBody partPlainEmpty := by
  decide
